import Mathlib

/-!
Verification of the MimeAPI command-matching core.

The development shallowly embeds the two functions of the matching core,
`cleanTranscribedText` (the text normalizer) and `findMatchingCommand`
(the two-phase matching engine), over `List Char` as the string model.
JavaScript string and array primitives used by the source
(`toLowerCase`, `startsWith`, `endsWith`, `indexOf`, `substring`,
`splice`, `trim`, `replace(/\s+/g, ' ')`) are given explicit executable
definitions with the corresponding JavaScript semantics; in particular
`substring` swaps its two indices when given in decreasing order,
`splice` at an out-of-range index removes nothing, and `/\s+/` matches
the full JavaScript whitespace class.  The cleaner's punctuation
removal is modelled loop by loop, including the stale-index splices the
source performs.  Case folding is modelled by `Char.toLower`, the ASCII
restriction of `toLowerCase`.
-/

namespace MimeAPI

/-- JavaScript values, as far as `cleanTranscribedText` distinguishes them:
it only asks whether its argument is a (non-empty) string; every other
value (`null`, `undefined`, numbers, booleans) is mapped to the empty
string by the guard on its first line. -/
inductive JsValue where
  | str (s : List Char)
  | nullV
  | undef
  | num (n : Int)
  | boolV (b : Bool)
deriving DecidableEq

/-- The fixed punctuation set removed by the cleaner (source line 444).
The two braces are written by code point to keep the character data
explicit. -/
def punctuationChars : List Char :=
  [',', '.', '?', '!', ';', ':', '"', '\'', '(', ')', '[', ']',
   Char.ofNat 0x7b, Char.ofNat 0x7d, '-', '_', '/', '\\']

/-- The JavaScript whitespace class matched by `/\s/` (and stripped by
`String.prototype.trim`): space, tab, line feed, vertical tab, form
feed, carriage return, and the Unicode space separators recognised by
JavaScript. -/
def isJsWhitespace (c : Char) : Bool :=
  c = ' ' || c = '\t' || c = '\n' || c = '\r' ||
  c = Char.ofNat 0x0b || c = Char.ofNat 0x0c ||
  c = Char.ofNat 0xa0 || c = Char.ofNat 0x1680 ||
  (0x2000 ≤ c.toNat && c.toNat ≤ 0x200a) ||
  c = Char.ofNat 0x2028 || c = Char.ofNat 0x2029 ||
  c = Char.ofNat 0x202f || c = Char.ofNat 0x205f ||
  c = Char.ofNat 0x3000 || c = Char.ofNat 0xfeff

/-- One left-to-right pass of `replace(/\s+/g, ' ')`: every maximal run
of whitespace characters is replaced by a single space.  The flag
records whether the previous character belonged to a whitespace run
whose single replacement space has already been emitted. -/
def collapseWsAux : Bool → List Char → List Char
  | _, [] => []
  | prevWs, c :: cs =>
    if isJsWhitespace c then
      if prevWs then collapseWsAux true cs
      else ' ' :: collapseWsAux true cs
    else c :: collapseWsAux false cs

/-- The whitespace-collapsing step of the cleaner (source line 467). -/
def collapseWs (l : List Char) : List Char := collapseWsAux false l

/-- JavaScript `String.prototype.trim` (source line 468): drop leading
and trailing whitespace. -/
def trimWs (l : List Char) : List Char :=
  ((l.dropWhile isJsWhitespace).reverse.dropWhile isJsWhitespace).reverse

/-- JavaScript `Array.prototype.splice(index, 1)` for a non-negative
index, as used on source line 462: remove the element at the index when
it is in range; an index at or beyond the current length removes
nothing. -/
def spliceOne (l : List Char) (i : Nat) : List Char :=
  if i < l.length then l.take i ++ l.drop (i + 1) else l

/-- The source's index-collection loop (lines 451-455): iterate the
character array from the last position down to the first and push every
position holding a punctuation character, so the resulting array lists
the punctuation positions in descending order.  Here the positions are
gathered in ascending order by an indexed scan and then reversed, which
yields the same array. -/
def punctuationIndexes (l : List Char) : List Nat :=
  ((l.enum.filter fun p => punctuationChars.contains p.2).map Prod.fst).reverse

/-- The source's removal loop (lines 460-463): walk the collected index
array from its last entry back to its first — that is, visit the
original positions in ascending order — and splice each stored index
out of the current array.  Each splice shifts the later characters one
place left, so every stored index after the first is stale: with two or
more punctuation characters in the string the loop removes characters
at shifted positions (possibly non-punctuation) and stored indexes that
fall at or beyond the shrunken length remove nothing. -/
def removePunctuation (l : List Char) : List Char :=
  (punctuationIndexes l).reverse.foldl spliceOne l

/-- The string path of `cleanTranscribedText` (source lines 443-472):
run the two punctuation-removal loops, collapse whitespace runs to
single spaces, and trim. -/
def cleanChars (l : List Char) : List Char :=
  trimWs (collapseWs (removePunctuation l))

/-- The cleaner `cleanTranscribedText` (source lines 436-473).  The
guard `if (!text || typeof text !== 'string') return ''` sends every
non-string value, and the empty string (which is falsy), to the empty
string. -/
def cleanTranscribedText : JsValue → List Char
  | .str s => if s = [] then [] else cleanChars s
  | _ => []

/-- The cleaner applied to an actual string, the form used everywhere
inside the matching engine. -/
def clean (s : List Char) : List Char := cleanTranscribedText (.str s)

/-- JavaScript `String.prototype.toLowerCase`, restricted to ASCII case
folding (`Char.toLower`); every string compared case-insensitively by
the source is folded through this map. -/
def toLowerChars (l : List Char) : List Char := l.map Char.toLower

/-- JavaScript `String.prototype.startsWith`: the second list is an
initial segment of the first. -/
def listStartsWith : List Char → List Char → Bool
  | _, [] => true
  | [], _ :: _ => false
  | a :: as, b :: bs => a == b && listStartsWith as bs

/-- JavaScript `String.prototype.endsWith`: the second list is a final
segment of the first. -/
def listEndsWith (s t : List Char) : Bool := listStartsWith s.reverse t.reverse

/-- JavaScript `String.prototype.indexOf`: position of the first
occurrence of the needle, `none` standing for the JavaScript result -1.
Searching for the empty string yields 0, as in JavaScript. -/
def jsIndexOf : List Char → List Char → Option Nat
  | [], t => if listStartsWith [] t then some 0 else none
  | a :: s, t =>
    if listStartsWith (a :: s) t then some 0
    else (jsIndexOf s t).map (· + 1)

/-- The index clamping of `String.prototype.substring`: a negative index
becomes 0 and an index beyond the end becomes the length. -/
def jsClamp (l : List Char) (x : Int) : Nat := min (max 0 x).toNat l.length

/-- JavaScript `String.prototype.substring(a, b)`: each index is clamped
to `[0, length]` and the two clamped indices are swapped when given in
decreasing order; the result is the segment between them. -/
def jsSubstring (l : List Char) (a b : Int) : List Char :=
  (l.drop (min (jsClamp l a) (jsClamp l b))).take
    (max (jsClamp l a) (jsClamp l b) - min (jsClamp l a) (jsClamp l b))

/-- A row of the `commands` table as read by the engine.  A `parameter_name`
stored as SQL `NULL` or as the empty string is falsy in the source's
truthiness test `command.has_parameter && command.parameter_name`; both
are modelled by the empty list. -/
structure Command where
  user_id : Nat
  command_name : List Char
  has_parameter : Bool
  parameter_name : List Char
  workflow_id : Nat
deriving DecidableEq

/-- The object returned by `findMatchingCommand`.  Failure objects carry
only `success` and `message`; the fields absent from them are modelled
as `none`. -/
structure MatchResult where
  success : Bool
  command : Option (List Char)
  parameter : Option (List Char)
  workflow_id : Option Nat
  message : String
deriving DecidableEq

/-- The failure object returned when the cleaned input is empty (source
lines 488-491). -/
def emptyCleanResult : MatchResult :=
  { success := false, command := none, parameter := none,
    workflow_id := none, message := "Empty command after cleaning" }

/-- The failure object returned when the user has no commands (source
lines 501-504). -/
def noCommandsResult : MatchResult :=
  { success := false, command := none, parameter := none,
    workflow_id := none, message := "No commands found for this user" }

/-- The failure object returned when neither phase matches (source lines
614-617). -/
def noMatchResult : MatchResult :=
  { success := false, command := none, parameter := none,
    workflow_id := none, message := "No matching command found" }

/-- The success object of an exact (phase 1) match (source lines
528-534): the stored `command_name` verbatim, a null parameter, and the
command's `workflow_id`. -/
def exactSuccess (c : Command) : MatchResult :=
  { success := true, command := some c.command_name, parameter := none,
    workflow_id := some c.workflow_id, message := "Ready to execute workflow" }

/-- The success object of a parameterized (phase 2) match (source lines
593-599). -/
def paramSuccess (c : Command) (v : List Char) : MatchResult :=
  { success := true, command := some c.command_name, parameter := some v,
    workflow_id := some c.workflow_id,
    message := "Ready to execute workflow with parameter" }

/-- The phase 1 test (source lines 516-525): the command takes no
parameter and its cleaned name, lowercase-folded, equals the cleaned
lowercase-folded input. -/
def exactMatches (cleanedUserInput : List Char) (c : Command) : Bool :=
  !c.has_parameter &&
    toLowerChars cleanedUserInput == toLowerChars (clean c.command_name)

/-- Phase 1 (source lines 515-537): scan the rows in order and return
the success object of the first exact match. -/
def phase1 (cleanedUserInput : List Char) (cmds : List Command) :
    Option MatchResult :=
  (cmds.find? (exactMatches cleanedUserInput)).map exactSuccess

/-- The prefix/suffix derivation of phase 2 (source lines 549-567):
clean the stored command and parameter, locate the first
case-insensitive occurrence of the cleaned parameter inside the cleaned
command, and split the cleaned command (in its original case) around
that occurrence.  `none` is the `paramIndex === -1` case.  The source's
`substring(0, paramIndex)` and `substring(paramIndex + length)` agree
with `take` and `drop` here because `indexOf` only returns in-range
non-negative positions. -/
def paramSplit (c : Command) : Option (List Char × List Char) :=
  let cleanedSavedCommand := clean c.command_name
  let cleanedSavedParam := clean c.parameter_name
  match jsIndexOf (toLowerChars cleanedSavedCommand)
      (toLowerChars cleanedSavedParam) with
  | none => none
  | some paramIndex =>
    some (cleanedSavedCommand.take paramIndex,
      cleanedSavedCommand.drop (paramIndex + cleanedSavedParam.length))

/-- One phase 2 iteration (source lines 542-609) on an already-cleaned
input: commands without a truthy `parameter_name` are not considered;
otherwise the input must start with the derived prefix and end with the
derived suffix (case-insensitively), and the parameter value is cut out
of the original-case cleaned input by `substring(prefixLen, inputLen -
suffixLen)` and trimmed. -/
def tryParam (cleanedUserInput : List Char) (c : Command) :
    Option MatchResult :=
  if c.has_parameter && !c.parameter_name.isEmpty then
    match paramSplit c with
    | none => none
    | some (pre, suf) =>
      if listStartsWith (toLowerChars cleanedUserInput) (toLowerChars pre) &&
          listEndsWith (toLowerChars cleanedUserInput) (toLowerChars suf) then
        some (paramSuccess c (trimWs (jsSubstring cleanedUserInput
          (pre.length : Int)
          ((cleanedUserInput.length : Int) - (suf.length : Int)))))
      else none
  else none

/-- Phase 2 (source lines 541-611): scan the rows in order and return
the first parameterized success. -/
def phase2 (cleanedUserInput : List Char) : List Command → Option MatchResult
  | [] => none
  | c :: cs =>
    match tryParam cleanedUserInput c with
    | some r => some r
    | none => phase2 cleanedUserInput cs

/-- The matching engine `findMatchingCommand` (source lines 476-623),
with the database fetch replaced by the caller-supplied row list: clean
the input and fail if it is empty, fail if there are no rows, then run
phase 1 followed by phase 2 and fall through to the no-match failure. -/
def findMatchingCommand (userInput : List Char) (commands : List Command) :
    MatchResult :=
  let cleanedUserInput := clean userInput
  if cleanedUserInput.isEmpty then emptyCleanResult
  else if commands.isEmpty then noCommandsResult
  else
    match phase1 cleanedUserInput commands with
    | some r => r
    | none =>
      match phase2 cleanedUserInput commands with
      | some r => r
      | none => noMatchResult

/-! Concrete commands and inputs used to instantiate the theorems below. -/

/-- A non-parameterized command whose name is stored in lower case. -/
def helloCmd : Command :=
  { user_id := 0, command_name := "hello world".data, has_parameter := false,
    parameter_name := [], workflow_id := 1 }

/-- The parameterized YouTube-search command of the specification's
example, with the example phrase Example standing for the parameter. -/
def searchCmd : Command :=
  { user_id := 0, command_name := "Search Example On Youtube".data,
    has_parameter := true, parameter_name := "Example".data, workflow_id := 2 }

/-- A non-parameterized fixed phrase that a parameterized template could
also match. -/
def playExact : Command :=
  { user_id := 0, command_name := "play song".data, has_parameter := false,
    parameter_name := [], workflow_id := 3 }

/-- A parameterized template overlapping `playExact`. -/
def playParam : Command :=
  { user_id := 0, command_name := "play song name".data, has_parameter := true,
    parameter_name := "song".data, workflow_id := 4 }

/-- A parameterized command whose derived prefix ab and suffix bc
overlap on the three-character input abc. -/
def overlapCmd : Command :=
  { user_id := 0, command_name := "abXbc".data, has_parameter := true,
    parameter_name := "X".data, workflow_id := 7 }

/-- A non-parameterized command whose stored name cleans to the empty
string. -/
def dotCmd : Command :=
  { user_id := 0, command_name := ".".data, has_parameter := false,
    parameter_name := [], workflow_id := 8 }

/-- Another non-parameterized command whose stored name cleans to the
empty string. -/
def commaCmd : Command :=
  { user_id := 0, command_name := ",".data, has_parameter := false,
    parameter_name := [], workflow_id := 9 }

/-- A parameterized command violating the data invariant: its parameter
phrase artist does not occur in its name. -/
def badParamCmd : Command :=
  { user_id := 0, command_name := "play song".data, has_parameter := true,
    parameter_name := "artist".data, workflow_id := 5 }

/-- A non-parameterized command whose stored name carries one
punctuation character and lower case, distinct from its cleaned
form. -/
def punctNameCmd : Command :=
  { user_id := 0, command_name := "hello world!".data, has_parameter := false,
    parameter_name := [], workflow_id := 6 }

/-- An input consisting solely of punctuation. -/
def dotsInput : List Char := "...".data

/-- An input holding two punctuation characters at distance two, on
which the removal loop's second splice misses. -/
def aCommaBInput : List Char := "a,b.".data

/-- The spec's upper-case exact-match example input. -/
def helloUpperInput : List Char := "HELLO WORLD".data

/-- The spec's parameter-extraction example input. -/
def batmanInput : List Char := "Search Batman On Youtube".data

/-- The fixed phrase matched by both `playExact` and `playParam`. -/
def playSongInput : List Char := "play song".data

/-- The three-character input on which `overlapCmd`'s prefix and suffix
overlap. -/
def abcInput : List Char := "abc".data

/-- A single dot, which cleans to the empty string. -/
def dotInput : List Char := ".".data

/-- A single comma, which cleans to the empty string. -/
def commaInput : List Char := ",".data

/-- A mixed-case input whose cleaned lower-case form is hello world. -/
def helloMixedInput : List Char := "Hello World".data

/-- A parameterized template that also matches the fixed phrase
play song in phase 2 (its derived suffix is empty). -/
def playTemplate : Command :=
  { user_id := 0, command_name := "play music".data, has_parameter := true,
    parameter_name := "music".data, workflow_id := 10 }

/-- The prefix `paramSplit` derives for `overlapCmd`. -/
def abPre : List Char := "ab".data

/-- The suffix `paramSplit` derives for `overlapCmd`. -/
def bcSuf : List Char := "bc".data

/-- The success object the engine actually returns on `abcInput` against
`overlapCmd`. -/
def overlapResult : MatchResult := paramSuccess overlapCmd ("b".data)

/-- The prefix `paramSplit` derives for `searchCmd`. -/
def searchPre : List Char := "Search ".data

/-- The suffix `paramSplit` derives for `searchCmd`. -/
def searchSuf : List Char := " On Youtube".data

/-- The parameter value extracted from `batmanInput`. -/
def batmanValue : List Char := "Batman".data

/-- The success object the engine returns on `batmanInput` against
`searchCmd`. -/
def batmanResult : MatchResult := paramSuccess searchCmd batmanValue

/-! Evaluation of the cleaner at the inputs where the stale-index
splices change its behaviour. -/

/-- C1 fails of the program: on the input a,b. the removal loop first
splices index 1 (the comma), shifting the rest left, and the stored
index 3 then falls beyond the shortened array and removes nothing, so
the period survives cleaning. -/
theorem c1_punct_survives_cleaning :
    clean aCommaBInput = ("ab.".data) ∧
      '.' ∈ clean aCommaBInput ∧ punctuationChars.contains '.' = true :=
  ⟨by decide, by decide, by decide⟩

/-- C2 fails of the program: three dots clean to one dot (only the
first stored index is fresh; the other two splices act on stale
positions), while one dot cleans to the empty string, so cleaning is
not idempotent. -/
theorem c2_not_idempotent :
    clean dotsInput = (".".data) ∧ clean (clean dotsInput) = [] ∧
      clean (clean dotsInput) ≠ clean dotsInput :=
  ⟨by decide, by decide, by decide⟩

/-- C3 fails of the program: the all-punctuation input of three dots
cleans to one dot, which is non-empty, so the engine runs past the
empty-input check and reports that no command matched (or that the user
has no commands, for an empty list) instead of the empty-after-cleaning
failure. -/
theorem c3_dots_not_empty_failure :
    clean dotsInput ≠ [] ∧
      findMatchingCommand dotsInput [helloCmd] = noMatchResult ∧
      findMatchingCommand dotsInput [] = noCommandsResult ∧
      findMatchingCommand dotsInput [helloCmd] ≠ emptyCleanResult :=
  ⟨by decide, by decide, by decide, by decide⟩

/-! Helper lemmas about the matching engine. -/

/-- When the cleaned input is non-empty and phase 1 locates a first
exact match, the engine returns that command's success object. -/
theorem findMatchingCommand_of_find? (inp : List Char) (cmds : List Command)
    (c₀ : Command) (hne : clean inp ≠ [])
    (hfind : cmds.find? (exactMatches (clean inp)) = some c₀) :
    findMatchingCommand inp cmds = exactSuccess c₀ := by
  have hmem : c₀ ∈ cmds := List.mem_of_find?_eq_some hfind
  have hcmds : cmds.isEmpty = false := by
    cases cmds with
    | nil => cases hmem
    | cons a t => rfl
  have hinp : (clean inp).isEmpty = false := by
    cases h : clean inp with
    | nil => exact absurd h hne
    | cons a t => rfl
  simp [findMatchingCommand, hinp, hcmds, phase1, hfind]

/-- If some command of the list passes the phase 1 test on a non-empty
cleaned input, the engine returns the success object of the first such
command, which takes no parameter. -/
theorem exists_exact_result (inp : List Char) (cmds : List Command)
    (hne : clean inp ≠ [])
    (hex : ∃ c ∈ cmds, c.has_parameter = false ∧
      toLowerChars (clean inp) = toLowerChars (clean c.command_name)) :
    ∃ c₀, cmds.find? (exactMatches (clean inp)) = some c₀ ∧
      c₀.has_parameter = false ∧
      findMatchingCommand inp cmds = exactSuccess c₀ := by
  obtain ⟨c, hc, hp, heq⟩ := hex
  have hpred : exactMatches (clean inp) c = true := by
    simp [exactMatches, hp, heq]
  have hsome : (cmds.find? (exactMatches (clean inp))).isSome := by
    rw [List.find?_isSome]
    exact ⟨c, hc, hpred⟩
  rcases hfind : cmds.find? (exactMatches (clean inp)) with _ | c₀
  · rw [hfind] at hsome; cases hsome
  · have hmatch := List.find?_some hfind
    rw [exactMatches] at hmatch
    have hp₀ : c₀.has_parameter = false := by
      simp only [Bool.and_eq_true] at hmatch
      simpa using hmatch.1
    exact ⟨c₀, rfl, hp₀, findMatchingCommand_of_find? inp cmds c₀ hne hfind⟩

/-- A phase 2 success is the parameterized success object of the tried
command. -/
theorem tryParam_shape (inp : List Char) (c : Command) (r : MatchResult)
    (h : tryParam inp c = some r) : ∃ v, r = paramSuccess c v := by
  rw [tryParam] at h
  split at h
  · split at h
    · cases h
    · split at h
      · injection h with h'
        exact ⟨_, h'.symm⟩
      · cases h
  · cases h

/-- A phase 2 success comes from some command of the scanned list. -/
theorem phase2_shape (inp : List Char) (cmds : List Command) (r : MatchResult)
    (h : phase2 inp cmds = some r) :
    ∃ c ∈ cmds, ∃ v, r = paramSuccess c v := by
  induction cmds with
  | nil => cases h
  | cons a t ih =>
    rcases ht : tryParam inp a with _ | r'
    · simp only [phase2, ht] at h
      obtain ⟨c, hc, v, hv⟩ := ih h
      exact ⟨c, List.mem_cons_of_mem _ hc, v, hv⟩
    · simp only [phase2, ht] at h
      obtain ⟨v, hv⟩ := tryParam_shape inp a r' ht
      injection h with h'
      exact ⟨a, List.mem_cons_self _ _, v, h'.symm.trans hv⟩

/-- C5, amended with the non-empty proviso: whenever the cleaned input
is non-empty and some non-parameterized command of the list matches it
exactly (case-insensitively, after normalization), the engine returns
the exact-match success object of the first such command — phase 1 is
completed over the whole list before any parameterized command is
tried, so no parameterized command anywhere in the list can shadow the
exact match. -/
theorem c5_exact_match_wins (inp : List Char) (cmds : List Command)
    (hne : clean inp ≠ [])
    (hex : ∃ c ∈ cmds, c.has_parameter = false ∧
      toLowerChars (clean inp) = toLowerChars (clean c.command_name)) :
    ∃ c₀, cmds.find? (exactMatches (clean inp)) = some c₀ ∧
      c₀.has_parameter = false ∧
      findMatchingCommand inp cmds = exactSuccess c₀ :=
  exists_exact_result inp cmds hne hex

/-- Instantiation of the previous theorem: the fixed phrase play song
resolves to the non-parameterized command even though the parameterized
template listed before it also matches the input in phase 2. -/
theorem c5_exact_match_wins_witness :
    (clean playSongInput ≠ [] ∧
      tryParam (clean playSongInput) playTemplate ≠ none) ∧
    ∃ c₀, [playTemplate, playExact].find?
        (exactMatches (clean playSongInput)) = some c₀ ∧
      c₀.has_parameter = false ∧
      findMatchingCommand playSongInput [playTemplate, playExact] =
        exactSuccess c₀ :=
  ⟨⟨by decide, by decide⟩,
    c5_exact_match_wins playSongInput [playTemplate, playExact] (by decide)
      ⟨playExact, by decide, by decide, by decide⟩⟩

/-- C5 as frozen is refuted by the degenerate input consisting of one
dot against a stored command whose name is also one dot: the exact
match condition holds after normalization (both sides clean to the
empty string), yet the engine returns the empty-input failure rather
than the exact match. -/
theorem c5_counterexample :
    dotCmd.has_parameter = false ∧
    toLowerChars (clean dotInput) = toLowerChars (clean dotCmd.command_name) ∧
    findMatchingCommand dotInput [dotCmd] = emptyCleanResult ∧
    (findMatchingCommand dotInput [dotCmd]).success = false := by
  refine ⟨rfl, by decide, by decide, by decide⟩

/-- C6, amended with the non-empty proviso: whenever the cleaned input
is non-empty and a command of the list takes no parameter and its
cleaned lowercase-folded name equals the cleaned lowercase-folded
input, the engine succeeds with a null parameter value. -/
theorem c6_exact_case_insensitive (inp : List Char) (cmds : List Command)
    (c : Command) (hne : clean inp ≠ []) (hc : c ∈ cmds)
    (hp : c.has_parameter = false)
    (heq : toLowerChars (clean inp) = toLowerChars (clean c.command_name)) :
    (findMatchingCommand inp cmds).success = true ∧
      (findMatchingCommand inp cmds).parameter = none := by
  obtain ⟨c₀, _, _, hres⟩ :=
    exists_exact_result inp cmds hne ⟨c, hc, hp, heq⟩
  rw [hres]
  exact ⟨rfl, rfl⟩

/-- Instantiation of the previous theorem at the spec's example: the
upper-case input HELLO WORLD matches the stored lower-case name
hello world. -/
theorem c6_exact_case_insensitive_witness :
    (clean helloUpperInput ≠ []) ∧
      (findMatchingCommand helloUpperInput [helloCmd]).success = true ∧
      (findMatchingCommand helloUpperInput [helloCmd]).parameter = none :=
  ⟨by decide, c6_exact_case_insensitive helloUpperInput [helloCmd] helloCmd
    (by decide) (by decide) rfl (by decide)⟩

/-- C6 as frozen is refuted by the degenerate input of a single comma
against a stored command named by a single comma: the lowercase-folded
cleaned forms agree (the sole punctuation character is removed from
both, leaving the empty string), yet the engine returns a failure
instead of an immediate success. -/
theorem c6_counterexample :
    commaCmd.has_parameter = false ∧
    toLowerChars (clean commaInput) =
      toLowerChars (clean commaCmd.command_name) ∧
    (findMatchingCommand commaInput [commaCmd]).success = false ∧
    (findMatchingCommand commaInput [commaCmd]).message =
      "Empty command after cleaning" := by
  refine ⟨rfl, by decide, by decide, by decide⟩

/-- C10: every success object returned by the engine carries the stored
`command_name` of some command of the supplied list verbatim — the raw,
un-normalized string, not its cleaned or lowercase-folded form — along
with that same command's `workflow_id`. -/
theorem c10_success_returns_stored_fields (inp : List Char)
    (cmds : List Command)
    (h : (findMatchingCommand inp cmds).success = true) :
    ∃ c ∈ cmds,
      (findMatchingCommand inp cmds).command = some c.command_name ∧
      (findMatchingCommand inp cmds).workflow_id = some c.workflow_id := by
  by_cases h1 : (clean inp).isEmpty
  · simp [findMatchingCommand, h1, emptyCleanResult] at h
  by_cases h2 : cmds.isEmpty
  · simp [findMatchingCommand, h1, h2, noCommandsResult] at h
  rcases h3 : phase1 (clean inp) cmds with _ | r1
  · rcases h4 : phase2 (clean inp) cmds with _ | r2
    · simp [findMatchingCommand, h1, h2, h3, h4, noMatchResult] at h
    · have hres : findMatchingCommand inp cmds = r2 := by
        simp [findMatchingCommand, h1, h2, h3, h4]
      rw [hres]
      obtain ⟨c, hc, v, hv⟩ := phase2_shape _ _ _ h4
      exact ⟨c, hc, by rw [hv]; rfl, by rw [hv]; rfl⟩
  · have hres : findMatchingCommand inp cmds = r1 := by
      simp [findMatchingCommand, h1, h2, h3]
    rw [hres]
    rw [phase1] at h3
    rcases h5 : cmds.find? (exactMatches (clean inp)) with _ | c₀
    · rw [h5] at h3; cases h3
    · rw [h5, Option.map_some'] at h3
      injection h3 with h6
      exact ⟨c₀, List.mem_of_find?_eq_some h5,
        by rw [← h6]; rfl, by rw [← h6]; rfl⟩

/-- Instantiation of the previous theorem: the stored name carries
punctuation and lower case, the input has neither, and the returned
`command` field is the punctuated stored name verbatim. -/
theorem c10_success_returns_stored_fields_witness :
    ((findMatchingCommand helloMixedInput [punctNameCmd]).success = true ∧
      (findMatchingCommand helloMixedInput [punctNameCmd]).command =
        some punctNameCmd.command_name) ∧
    ∃ c ∈ [punctNameCmd],
      (findMatchingCommand helloMixedInput [punctNameCmd]).command =
        some c.command_name ∧
      (findMatchingCommand helloMixedInput [punctNameCmd]).workflow_id =
        some c.workflow_id :=
  ⟨⟨by decide, by decide⟩,
    c10_success_returns_stored_fields helloMixedInput [punctNameCmd]
      (by decide)⟩

/-! Helper lemmas about the JavaScript string primitives. -/

/-- A string is at least as long as any initial segment it starts
with. -/
theorem listStartsWith_length (s t : List Char)
    (h : listStartsWith s t = true) : t.length ≤ s.length := by
  induction s generalizing t with
  | nil =>
    cases t with
    | nil => simp
    | cons b bs => simp [listStartsWith] at h
  | cons a as ih =>
    cases t with
    | nil => simp
    | cons b bs =>
      rw [listStartsWith, Bool.and_eq_true] at h
      simpa using ih bs h.2

/-- A string is at least as long as any final segment it ends with. -/
theorem listEndsWith_length (s t : List Char)
    (h : listEndsWith s t = true) : t.length ≤ s.length := by
  have h1 := listStartsWith_length s.reverse t.reverse h
  simpa using h1

/-- Case folding preserves length. -/
theorem toLowerChars_length (l : List Char) :
    (toLowerChars l).length = l.length := List.length_map _ _

/-- On indices given in order and in range, `substring` is the plain
slice between them. -/
theorem jsSubstring_of_valid (l : List Char) (a b : Nat)
    (hab : a ≤ b) (hb : b ≤ l.length) :
    jsSubstring l (a : Int) (b : Int) = (l.drop a).take (b - a) := by
  have h1 : jsClamp l (a : Int) = a := by
    rw [jsClamp]; omega
  have h2 : jsClamp l (b : Int) = b := by
    rw [jsClamp]; omega
  rw [jsSubstring, h1, h2, Nat.min_eq_left hab, Nat.max_eq_right hab]

/-- `substring` ignores the order of its two indices. -/
theorem jsSubstring_swap (l : List Char) (a b : Int) :
    jsSubstring l a b = jsSubstring l b a := by
  rw [jsSubstring, jsSubstring, Nat.min_comm, Nat.max_comm]

/-- C7: on a successful phase 2 match whose derived prefix and suffix
fit inside the input, the extracted parameter value is the slice of the
cleaned input (original case preserved) lying between the prefix length
and the input length minus the suffix length, trimmed of surrounding
whitespace. -/
theorem c7_parameter_extraction (inp : List Char) (c : Command)
    (r : MatchResult) (pre suf : List Char)
    (hr : tryParam inp c = some r)
    (hsplit : paramSplit c = some (pre, suf))
    (hlen : pre.length + suf.length ≤ inp.length) :
    r.success = true ∧
      r.parameter = some (trimWs ((inp.drop pre.length).take
        (inp.length - suf.length - pre.length))) := by
  rw [tryParam] at hr
  split at hr
  · rw [hsplit] at hr
    simp only [] at hr
    split at hr
    · injection hr with h'
      subst h'
      refine ⟨rfl, ?_⟩
      have hb : ((inp.length : Int) - (suf.length : Int)) =
          (((inp.length - suf.length : Nat)) : Int) := by omega
      have hjs : jsSubstring inp (pre.length : Int)
          ((inp.length : Int) - (suf.length : Int)) =
          (inp.drop pre.length).take (inp.length - suf.length - pre.length) := by
        rw [hb, jsSubstring_of_valid inp pre.length (inp.length - suf.length)
          (by omega) (by omega)]
      rw [paramSuccess, hjs]
    · cases hr
  · cases hr

/-- Instantiation of the previous theorem at the spec's example: input
Search Batman On Youtube against the command Search Example On Youtube
with parameter phrase Example extracts Batman, original case intact. -/
theorem c7_parameter_extraction_witness :
    (tryParam batmanInput searchCmd = some batmanResult ∧
      paramSplit searchCmd = some (searchPre, searchSuf) ∧
      searchPre.length + searchSuf.length ≤ batmanInput.length ∧
      batmanResult.parameter = some batmanValue) ∧
    (batmanResult.success = true ∧
      batmanResult.parameter = some (trimWs ((batmanInput.drop
        searchPre.length).take (batmanInput.length - searchSuf.length -
          searchPre.length)))) :=
  ⟨⟨by decide, by decide, by decide, by decide⟩,
    c7_parameter_extraction batmanInput searchCmd batmanResult searchPre
      searchSuf (by decide) (by decide) (by decide)⟩

/-- C4 as frozen is refuted: on the three-character input abc the
command abXbc with parameter phrase X derives the prefix ab and the
suffix bc, whose combined length 4 exceeds the input length 3, yet the
engine does not skip the command — it returns a success object (the
JavaScript `substring` swaps the crossed slice indices and produces the
one-character value b). -/
theorem c4_counterexample :
    overlapCmd.has_parameter = true ∧
    paramSplit overlapCmd = some (abPre, bcSuf) ∧
    (clean abcInput).length < abPre.length + bcSuf.length ∧
    findMatchingCommand abcInput [overlapCmd] = overlapResult ∧
    (findMatchingCommand abcInput [overlapCmd]).success = true :=
  ⟨rfl, by decide, by decide, by decide, by decide⟩

/-- C4, amended: phase 2 never compares the combined prefix/suffix
length against the input length.  Whenever the lowercase-folded input
starts with the derived prefix and ends with the derived suffix, the
command matches even though the two overlap (prefix length plus suffix
length exceeding the input length), and the success object carries the
value cut between the two slice indices taken in swapped order, as
JavaScript `substring` does on crossed indices. -/
theorem c4_overlap_still_matches (inp : List Char) (c : Command)
    (pre suf : List Char)
    (hp : c.has_parameter = true) (hpn : c.parameter_name ≠ [])
    (hsplit : paramSplit c = some (pre, suf))
    (hstart : listStartsWith (toLowerChars inp) (toLowerChars pre) = true)
    (hend : listEndsWith (toLowerChars inp) (toLowerChars suf) = true)
    (hlen : inp.length < pre.length + suf.length) :
    tryParam inp c = some (paramSuccess c (trimWs
      ((inp.drop (inp.length - suf.length)).take
        (pre.length - (inp.length - suf.length))))) := by
  have hpre : pre.length ≤ inp.length := by
    have h1 := listStartsWith_length _ _ hstart
    simpa [toLowerChars_length] using h1
  have hsuf : suf.length ≤ inp.length := by
    have h1 := listEndsWith_length _ _ hend
    simpa [toLowerChars_length] using h1
  have hcond : (c.has_parameter && !c.parameter_name.isEmpty) = true := by
    rw [hp]
    simpa using hpn
  have hb : ((inp.length : Int) - (suf.length : Int)) =
      (((inp.length - suf.length : Nat)) : Int) := by omega
  have hjs : jsSubstring inp (pre.length : Int)
      ((inp.length : Int) - (suf.length : Int)) =
      (inp.drop (inp.length - suf.length)).take
        (pre.length - (inp.length - suf.length)) := by
    rw [hb, jsSubstring_swap,
      jsSubstring_of_valid inp (inp.length - suf.length) pre.length
        (by omega) hpre]
  rw [tryParam, if_pos hcond, hsplit]
  simp only [hstart, hend, Bool.and_self, if_true, hjs]

/-- Instantiation of the previous theorem at the overlapping example:
prefix ab and suffix bc overlap on abc, and the swapped slice [1, 2)
trims to the value b. -/
theorem c4_overlap_still_matches_witness :
    (overlapCmd.has_parameter = true ∧ overlapCmd.parameter_name ≠ [] ∧
      paramSplit overlapCmd = some (abPre, bcSuf) ∧
      listStartsWith (toLowerChars abcInput) (toLowerChars abPre) = true ∧
      listEndsWith (toLowerChars abcInput) (toLowerChars bcSuf) = true ∧
      abcInput.length < abPre.length + bcSuf.length) ∧
    tryParam abcInput overlapCmd = some (paramSuccess overlapCmd (trimWs
      ((abcInput.drop (abcInput.length - bcSuf.length)).take
        (abPre.length - (abcInput.length - bcSuf.length))))) :=
  ⟨⟨rfl, by decide, by decide, by decide, by decide, by decide⟩,
    c4_overlap_still_matches abcInput overlapCmd abPre bcSuf rfl (by decide)
      (by decide) (by decide) (by decide) (by decide)⟩

/-- C8: a parameterized command whose cleaned lowercase-folded
parameter phrase does not occur inside its cleaned lowercase-folded
name never matches any input, and in phase 2 the scan passes over it
and still tries all the remaining commands.  Every function involved is
total, so no exception can be raised. -/
theorem c8_unmatchable_skipped (inp : List Char) (l₁ l₂ : List Command)
    (c : Command) (_hp : c.has_parameter = true)
    (hidx : jsIndexOf (toLowerChars (clean c.command_name))
      (toLowerChars (clean c.parameter_name)) = none) :
    (∀ inp' : List Char, tryParam inp' c = none) ∧
      phase2 inp (l₁ ++ c :: l₂) = phase2 inp (l₁ ++ l₂) := by
  have htp : ∀ inp' : List Char, tryParam inp' c = none := by
    intro inp'
    rw [tryParam]
    split
    · simp [paramSplit, hidx]
    · rfl
  refine ⟨htp, ?_⟩
  induction l₁ with
  | nil => simp only [List.nil_append, phase2, htp inp]
  | cons a t ih =>
    rcases hta : tryParam inp a with _ | r'
    · simp only [List.cons_append, phase2, hta]
      exact ih
    · simp only [List.cons_append, phase2, hta]

/-- Instantiation of the previous theorem: the parameter phrase artist
does not occur in the name play song, so that command is passed over
while the YouTube command after it is still tried. -/
theorem c8_unmatchable_skipped_witness :
    (badParamCmd.has_parameter = true ∧
      jsIndexOf (toLowerChars (clean badParamCmd.command_name))
        (toLowerChars (clean badParamCmd.parameter_name)) = none) ∧
    ((∀ inp' : List Char, tryParam inp' badParamCmd = none) ∧
      phase2 playSongInput ([] ++ badParamCmd :: [searchCmd]) =
        phase2 playSongInput ([] ++ [searchCmd])) :=
  ⟨⟨rfl, by decide⟩,
    c8_unmatchable_skipped playSongInput [] [searchCmd] badParamCmd rfl
      (by decide)⟩

/-- C9: the cleaner maps null and every other non-string value to the
empty string; being a total function of the embedded value, it raises
nothing. -/
theorem c9_non_string_empty (v : JsValue) (h : ∀ s, v ≠ JsValue.str s) :
    cleanTranscribedText v = [] := by
  cases v with
  | str s => exact absurd rfl (h s)
  | nullV => rfl
  | undef => rfl
  | num n => rfl
  | boolV b => rfl

/-- Instantiation of the previous theorem at the null value. -/
theorem c9_non_string_empty_witness :
    (∀ s, JsValue.nullV ≠ JsValue.str s) ∧
      cleanTranscribedText JsValue.nullV = [] :=
  ⟨fun _ h => JsValue.noConfusion h,
    c9_non_string_empty JsValue.nullV (fun _ h => JsValue.noConfusion h)⟩

end MimeAPI
